import Mathlib

/-
  Verification of the neural-nexus collection coordination engine.

  Shallow embedding of the Python source: each database table is a list of
  rows, each SQL statement an atomic function on that list, and each Python
  function a Lean function composed of those statements.  Timestamps are
  naturals (seconds); SQL NULL is Option.none; Postgres ON CONFLICT DO
  NOTHING RETURNING is a conditional insert returning whether a row was
  written.  Concurrency is modelled where a claim needs it: an interleaving
  of calls is a schedule of the callers' atomic statements against the
  shared table (statement-level atomicity, matching READ COMMITTED
  visibility where every statement sees the table state left by the
  statements scheduled before it).
-/

/-! Generic insertion sort used to model ORDER BY (a stable total sort). -/

def insertSorted {α : Type} (le : α → α → Bool) (x : α) : List α → List α
  | [] => [x]
  | y :: ys => if le x y then x :: y :: ys else y :: insertSorted le x ys

def sortBy {α : Type} (le : α → α → Bool) : List α → List α
  | [] => []
  | x :: xs => insertSorted le x (sortBy le xs)

namespace MatchOps

/-- A row of the matches table (src/database/operations/match_ops.py,
columns of INSERT INTO matches). -/
structure MatchRow where
  match_id : String
  region : String
  collected_by : String
  game_version : String
  game_duration : Int
  game_creation : Int
  patch : String
  game_mode : String
  json_path : String
  timeline_json_path : String
  deriving Repr, DecidableEq

abbrev MatchesTable := List MatchRow

/-- Whether the matches table already has a row for this match identifier
(the primary-key conflict target of insert_match). -/
def containsMatch (t : MatchesTable) (mid : String) : Bool :=
  t.any (fun r => r.match_id == mid)

/-- Embeds insert_match (src/database/operations/match_ops.py:17-56):
INSERT INTO matches ... ON CONFLICT (match_id) DO NOTHING RETURNING
match_id; the call returns true iff a row was actually written, and an
existing row is left untouched. -/
def insert_match (t : MatchesTable) (row : MatchRow) : Bool × MatchesTable :=
  if containsMatch t row.match_id then (false, t) else (true, t ++ [row])

/-- A sequence of insert_match calls applied in order.  Each call is one
atomic conditional INSERT, so any interleaving of calls from the two
pipelines is exactly such a sequence.  Returns each call's row paired with
its result, and the final table. -/
def runInserts : MatchesTable → List MatchRow → List (MatchRow × Bool) × MatchesTable
  | t, [] => ([], t)
  | t, r :: rs =>
    let (b, t1) := insert_match t r
    let (trace, t2) := runInserts t1 rs
    ((r, b) :: trace, t2)

/-- How many calls for the given match identifier returned true. -/
def trueCountFor (mid : String) (trace : List (MatchRow × Bool)) : Nat :=
  (trace.filter (fun rb => rb.2 && rb.1.match_id == mid)).length

end MatchOps

namespace MatchLock

/-- A row of the match_locks table
(src/services/shared/storage/match_lock.py). -/
structure LockRow where
  match_id : String
  locked_by : String
  expires_at : Nat
  deriving Repr, DecidableEq

abbrev LockTable := List LockRow

/-- SELECT locked_by, expires_at FROM match_locks WHERE match_id = %s
(the table is keyed on match_id, so at most one row matches). -/
def lookupLock (t : LockTable) (mid : String) : Option LockRow :=
  t.find? (fun r => r.match_id == mid)

/-- DELETE FROM match_locks WHERE match_id = %s &mdash; unconditional on
expiry, exactly as in try_acquire (match_lock.py:45). -/
def deleteLock (t : LockTable) (mid : String) : LockTable :=
  t.filter (fun r => !(r.match_id == mid))

/-- INSERT INTO match_locks (match_id, locked_by, expires_at) VALUES
(%s, %s, NOW() + INTERVAL '1 hour') ON CONFLICT (match_id) DO NOTHING
RETURNING match_id.  The TTL is the fixed one hour = 3600 seconds. -/
def insertLock (now : Nat) (t : LockTable) (mid service : String) : Bool × LockTable :=
  if (lookupLock t mid).isSome then (false, t)
  else (true, t ++ [⟨mid, service, now + 3600⟩])

/-- Embeds MatchLockManager.try_acquire (match_lock.py:19-64) executed in
isolation (no concurrent interleaving): SELECT the row; if present and
expired, DELETE it; then the conditional INSERT; return whether the INSERT
wrote a row.  If the row is present and unexpired, return false at once. -/
def try_acquire (now : Nat) (t : LockTable) (mid service : String) : Bool × LockTable :=
  match lookupLock t mid with
  | some r =>
    if r.expires_at < now then insertLock now (deleteLock t mid) mid service
    else (false, t)
  | none => insertLock now t mid service

/-- Progress of one caller through try_acquire's SQL statements. -/
inductive Phase
  | start
  | willDelete
  | willInsert
  | finished (result : Bool)
  deriving Repr, DecidableEq

structure Caller where
  service : String
  phase : Phase
  deriving Repr, DecidableEq

/-- One caller executes its next statement of try_acquire against the
shared lock table.  The SELECT together with the Python-side expiry test is
one step (the test is local computation on the fetched row); the DELETE and
the conditional INSERT are each their own atomic statement, exactly the
granularity at which two database sessions interleave. -/
def stepCaller (now : Nat) (mid : String) (t : LockTable) (c : Caller) : LockTable × Caller :=
  match c.phase with
  | .start =>
    match lookupLock t mid with
    | some r =>
      if r.expires_at < now then (t, { c with phase := .willDelete })
      else (t, { c with phase := .finished false })
    | none => (t, { c with phase := .willInsert })
  | .willDelete => (deleteLock t mid, { c with phase := .willInsert })
  | .willInsert =>
    let (b, t1) := insertLock now t mid c.service
    (t1, { c with phase := .finished b })
  | .finished _ => (t, c)

/-- Run an interleaving of two try_acquire callers for the same match id:
true schedules a step of the first caller, false a step of the second. -/
def runSched (now : Nat) (mid : String) :
    List Bool → LockTable → Caller → Caller → LockTable × Caller × Caller
  | [], t, a, b => (t, a, b)
  | s :: rest, t, a, b =>
    if s then
      let (t1, a1) := stepCaller now mid t a
      runSched now mid rest t1 a1 b
    else
      let (t1, b1) := stepCaller now mid t b
      runSched now mid rest t1 a b1

end MatchLock


namespace QueueManager

/-- A row of the collector pipeline's players table, the columns
QueueManager's queries use (src/services/collector/queue_manager.py).
tier is nullable in the schema, hence Option. -/
structure PlayerRow where
  puuid : String
  region : String
  tier : Option String
  next_check_after : Nat
  deriving Repr, DecidableEq

/-- Tier priority order, highest to lowest (queue_manager.py:23-34). -/
def TIER_ORDER : List String :=
  ["CHALLENGER", "GRANDMASTER", "MASTER", "DIAMOND", "EMERALD",
   "PLATINUM", "GOLD", "SILVER", "BRONZE", "IRON"]

/-- ORDER BY next_check_after ASC LIMIT 1 over a result set: the first row
with minimal next_check_after (ties resolved to the earlier row, a
deterministic refinement of the unspecified SQL tie order). -/
def minByNext : List PlayerRow → Option PlayerRow
  | [] => none
  | p :: ps =>
    match minByNext ps with
    | none => some p
    | some q => if p.next_check_after ≤ q.next_check_after then some p else some q

/-- One iteration of the cascade: SELECT * FROM players WHERE
next_check_after < CURRENT_TIMESTAMP AND region = %s AND tier = %s ORDER BY
next_check_after ASC LIMIT 1 (queue_manager.py:44-51).  Note the strict
comparison, and that a NULL tier never satisfies tier = %s. -/
def tierQuery (players : List PlayerRow) (now : Nat) (region tier : String) :
    Option PlayerRow :=
  minByNext (players.filter (fun p =>
    decide (p.next_check_after < now) && p.region == region && p.tier == some tier))

/-- The tier cascade loop of get_next_player over a list of tiers: return
the first tier's hit, else recurse on the remaining tiers. -/
def cascade (players : List PlayerRow) (now : Nat) (region : String) :
    List String → Option PlayerRow
  | [] => none
  | tier :: tiers =>
    match tierQuery players now region tier with
    | some p => some p
    | none => cascade players now region tiers

/-- Embeds QueueManager.get_next_player (queue_manager.py:36-58): try each
tier of TIER_ORDER in order, return the first due player found. -/
def get_next_player (players : List PlayerRow) (now : Nat) (region : String) :
    Option PlayerRow :=
  cascade players now region TIER_ORDER

/-- Embeds QueueManager.get_oldest_checked_player (queue_manager.py:60-73):
SELECT * FROM players WHERE region = %s ORDER BY next_check_after ASC
LIMIT 1, with no due-time filter. -/
def get_oldest_checked_player (players : List PlayerRow) (region : String) :
    Option PlayerRow :=
  minByNext (players.filter (fun p => p.region == region))

/-- The worker's selection step (src/services/collector/main.py:41-54):
get_next_player, falling back to get_oldest_checked_player when no tier has
a due player. -/
def selectPlayer (players : List PlayerRow) (now : Nat) (region : String) :
    Option PlayerRow :=
  match get_next_player players now region with
  | some p => some p
  | none => get_oldest_checked_player players region

end QueueManager

namespace PlayerOps

/-- A row of the v3 players table, the columns the claims touch
(src/database/operations/player_ops.py).  The two scoped identifiers and
the tier are nullable. -/
structure PlayerRow where
  region : String
  game_name : String
  tag_line : String
  apex_puuid : Option String
  nexus_puuid : Option String
  tier : Option String
  league_points : Int
  deriving Repr, DecidableEq

abbrev PlayersTable := List PlayerRow

/-- The natural-key WHERE clause shared by the UPDATE statements:
region = %s AND game_name = %s AND tag_line = %s. -/
def keyMatches (p : PlayerRow) (region game_name tag_line : String) : Bool :=
  p.region == region && p.game_name == game_name && p.tag_line == tag_line

/-- Embeds update_apex_puuid (player_ops.py:120-134): UPDATE players SET
apex_puuid = %s WHERE the natural key matches.  There is no guard on the
stored value being NULL.  Returns rowcount > 0 and the new table. -/
def update_apex_puuid (t : PlayersTable) (region game_name tag_line apex_puuid : String) :
    Bool × PlayersTable :=
  (t.any (fun p => keyMatches p region game_name tag_line),
   t.map (fun p =>
     if keyMatches p region game_name tag_line then { p with apex_puuid := some apex_puuid }
     else p))

/-- Embeds update_nexus_puuid (player_ops.py:137-151): UPDATE players SET
nexus_puuid = %s WHERE the natural key matches.  There is no guard on the
stored value being NULL.  Returns rowcount > 0 and the new table. -/
def update_nexus_puuid (t : PlayersTable) (region game_name tag_line nexus_puuid : String) :
    Bool × PlayersTable :=
  (t.any (fun p => keyMatches p region game_name tag_line),
   t.map (fun p =>
     if keyMatches p region game_name tag_line then { p with nexus_puuid := some nexus_puuid }
     else p))

/-- The natural key of a row, for stating that updates never create or
destroy rows. -/
def natKey (p : PlayerRow) : String × String × String :=
  (p.region, p.game_name, p.tag_line)

/-- SQL predicate tier NOT IN ('CHALLENGER', 'GRANDMASTER') under
three-valued logic: a row is selected only when the predicate is TRUE, and
for tier NULL the NOT IN comparison is UNKNOWN, so the row is rejected. -/
def tierNotChallGM : Option String → Bool
  | none => false
  | some tier => !(tier == "CHALLENGER") && !(tier == "GRANDMASTER")

/-- CASE tier WHEN 'MASTER' THEN 1 WHEN 'DIAMOND' THEN 2 WHEN 'EMERALD'
THEN 3 WHEN 'PLATINUM' THEN 4 ELSE 5 END (player_ops.py:235-241); a NULL
tier equals none of the WHEN arms and falls to the ELSE. -/
def tierCaseRank (tier : Option String) : Nat :=
  match tier with
  | some "MASTER" => 1
  | some "DIAMOND" => 2
  | some "EMERALD" => 3
  | some "PLATINUM" => 4
  | _ => 5

/-- ORDER BY the CASE rank ascending, then league_points DESC. -/
def candOrder (a b : PlayerRow) : Bool :=
  decide (tierCaseRank a.tier < tierCaseRank b.tier) ||
    (tierCaseRank a.tier == tierCaseRank b.tier && decide (b.league_points ≤ a.league_points))

/-- Embeds get_players_without_nexus_puuid (player_ops.py:221-250):
SELECT * FROM players WHERE apex_puuid IS NOT NULL AND nexus_puuid IS NULL
AND tier NOT IN ('CHALLENGER', 'GRANDMASTER') ORDER BY CASE tier ... END,
league_points DESC LIMIT %s. -/
def get_players_without_nexus_puuid (t : PlayersTable) (limit : Nat) : List PlayerRow :=
  (sortBy candOrder (t.filter (fun p =>
    p.apex_puuid.isSome && p.nexus_puuid.isNone && tierNotChallGM p.tier))).take limit

end PlayerOps

namespace RiotClient

/-- An HTTP response as _make_request inspects it: the status code, the
parsed Retry-After header if present, and the JSON payload abstracted to an
opaque string. -/
structure HttpResponse where
  status : Nat
  retryAfter : Option Nat
  body : Option String
  deriving Repr, DecidableEq

/-- What one _make_request call does: the value returned to the caller, the
total seconds passed to time.sleep, and the number of HTTP requests
issued. -/
structure Outcome where
  result : Option String
  slept : Nat
  requestsSent : Nat
  deriving Repr, DecidableEq

/-- Embeds RiotAPIClient._make_request
(src/services/shared/api/riot_client.py:48-89).  The argument is the
sequence of responses the network would return to successive requests, so a
retry would consume a further element; an empty sequence models the request
raising (timeout or other exception), which the code catches and converts
to None.  Each branch of the Python code issues exactly one session.get and
returns: 200 gives the payload; 429 sleeps the server-provided Retry-After
(default 60) and returns None without another request; 404 and every other
status return None. -/
def make_request (responses : List HttpResponse) : Outcome :=
  match responses with
  | [] => { result := none, slept := 0, requestsSent := 0 }
  | r :: _ =>
    if r.status = 200 then { result := r.body, slept := 0, requestsSent := 1 }
    else if r.status = 429 then
      { result := none, slept := r.retryAfter.getD 60, requestsSent := 1 }
    else { result := none, slept := 0, requestsSent := 1 }

end RiotClient

namespace RegionalRateLimiter

/-- One region's token bucket
(src/services/collector/api/rate_limiter.py:13-18): remaining tokens and
the start of the current fixed window. -/
structure Bucket where
  tokens : Nat
  window_start : Nat
  deriving Repr, DecidableEq

/-- Embeds RegionalRateLimiter.acquire (rate_limiter.py:20-53) for one
region's bucket, at integer time now, with capacity C
(settings.RATE_LIMIT_REQUESTS) and window W
(settings.RATE_LIMIT_WINDOW_SECONDS).  Returns the time at which the
request is granted and the bucket afterwards.  If the window has elapsed
the bucket refills and the window restarts; a remaining token is consumed
at once; otherwise the caller sleeps until window_start + W and the
recursive retry is unfolded: on waking, the elapsed-window test holds, the
bucket refills at the wake time, and a token is taken (the unfolding is
exact whenever C is at least 1, since the refilled bucket always grants). -/
def acquire (C W now : Nat) (b : Bucket) : Nat × Bucket :=
  let b1 := if b.window_start + W ≤ now then { tokens := C, window_start := now } else b
  if 0 < b1.tokens then
    (now, { tokens := b1.tokens - 1, window_start := b1.window_start })
  else
    (b1.window_start + W, { tokens := C - 1, window_start := b1.window_start + W })

/-- n back-to-back acquire calls for one scope and region: each call is
issued at the instant the previous one was granted.  Returns the grants as
(grant time, window the grant was counted against) pairs, the completion
time of the whole run, and the final bucket. -/
def runAcquires (C W : Nat) : Nat → Nat → Bucket → List (Nat × Nat) × Nat × Bucket
  | 0, t, b => ([], t, b)
  | n + 1, t, b =>
    let (g, b1) := acquire C W t b
    let (trace, tf, bf) := runAcquires C W n g b1
    ((g, b1.window_start) :: trace, tf, bf)

/-- How many grants of a trace were counted against the window that started
at w. -/
def grantsInWindow (w : Nat) (trace : List (Nat × Nat)) : Nat :=
  (trace.filter (fun gw => gw.2 == w)).length

end RegionalRateLimiter

namespace QueueOps

inductive QStatus
  | pending
  | processing
  deriving Repr, DecidableEq

/-- A row of collection_queues (src/database/operations/queue_ops.py). -/
structure QueueEntry where
  region : String
  game_name : String
  tag_line : String
  queue_type : String
  priority : Int
  next_check : Nat
  status : QStatus
  attempts : Nat
  last_error : Option String
  last_attempt : Option Nat
  deriving Repr, DecidableEq

/-- WHERE q.queue_type = %s AND q.next_check <= CURRENT_TIMESTAMP AND
q.status = 'pending' (queue_ops.py:76-78) &mdash; note there is no region
condition. -/
def duePending (qs : List QueueEntry) (queue_type : String) (now : Nat) : List QueueEntry :=
  qs.filter (fun q =>
    q.queue_type == queue_type && decide (q.next_check ≤ now) && q.status == QStatus.pending)

/-- ORDER BY q.priority DESC, q.next_check ASC (queue_ops.py:79). -/
def queueOrder (a b : QueueEntry) : Bool :=
  decide (b.priority < a.priority) ||
    (a.priority == b.priority && decide (a.next_check ≤ b.next_check))

/-- JOIN players p ON the natural key (queue_ops.py:71-75); the players
table is unique on the natural key, so the first match is the match. -/
def joinPlayer (players : List PlayerOps.PlayerRow) (q : QueueEntry) :
    Option PlayerOps.PlayerRow :=
  players.find? (fun p =>
    p.region == q.region && p.game_name == q.game_name && p.tag_line == q.tag_line)

/-- Embeds get_next_from_queue (queue_ops.py:55-87): the due pending
entries of the queue_type, every region included, ordered by priority DESC
then next_check ASC, inner-joined to players, first limit rows of p.*. -/
def get_next_from_queue (qs : List QueueEntry) (players : List PlayerOps.PlayerRow)
    (queue_type : String) (now : Nat) (limit : Nat) : List PlayerOps.PlayerRow :=
  ((sortBy queueOrder (duePending qs queue_type now)).filterMap (joinPlayer players)).take limit

/-- Embeds mark_queue_processing (queue_ops.py:90-106): UPDATE
collection_queues SET status = 'processing', last_attempt =
CURRENT_TIMESTAMP WHERE the natural key and queue_type match. -/
def mark_queue_processing (qs : List QueueEntry)
    (region game_name tag_line queue_type : String) (now : Nat) : List QueueEntry :=
  qs.map (fun q =>
    if q.region == region && q.game_name == game_name && q.tag_line == tag_line &&
        q.queue_type == queue_type
    then { q with status := QStatus.processing, last_attempt := some now }
    else q)

/-- The selection-and-skip fragment of one iteration of
UnifiedCollectionRunner.process_region
(src/services/apex/run_collection_parallel_unified.py:143-180): pop the
head of the apex queue, fall back to the nexus queue when apex is empty; if
nothing was returned, or the returned player's region differs from the
worker's region, the iteration continues with the queue table untouched;
otherwise the entry is marked processing and handed to the collector. -/
def processRegionStep (qs : List QueueEntry) (players : List PlayerOps.PlayerRow)
    (region : String) (now : Nat) :
    List QueueEntry × Option (PlayerOps.PlayerRow × String) :=
  match get_next_from_queue qs players "apex" now 1 with
  | p :: _ =>
    if p.region ≠ region then (qs, none)
    else (mark_queue_processing qs p.region p.game_name p.tag_line "apex" now,
          some (p, "apex"))
  | [] =>
    match get_next_from_queue qs players "nexus" now 1 with
    | p :: _ =>
      if p.region ≠ region then (qs, none)
      else (mark_queue_processing qs p.region p.game_name p.tag_line "nexus" now,
            some (p, "nexus"))
    | [] => (qs, none)

end QueueOps

/-! Theorems.  One theorem per claim, with the helper lemmas it needs. -/

namespace MatchOps

theorem containsMatch_insert_preserved (t : MatchesTable) (r : MatchRow) (mid : String)
    (h : containsMatch t mid = true) :
    containsMatch (insert_match t r).2 mid = true := by
  unfold insert_match
  split
  · exact h
  · simp only [containsMatch, List.any_append] at h ⊢
    simp [h]

theorem runInserts_cons (t : MatchesTable) (r : MatchRow) (rs : List MatchRow) :
    runInserts t (r :: rs) =
      ((r, (insert_match t r).1) :: (runInserts (insert_match t r).2 rs).1,
       (runInserts (insert_match t r).2 rs).2) :=
  rfl

theorem trueCountFor_cons (mid : String) (rb : MatchRow × Bool)
    (trace : List (MatchRow × Bool)) :
    trueCountFor mid (rb :: trace) =
      (if rb.2 && rb.1.match_id == mid then 1 else 0) + trueCountFor mid trace := by
  simp only [trueCountFor, List.filter]
  split
  · next hcond => simp [hcond, Nat.add_comm]
  · next hcond => simp [hcond]

theorem trueCountFor_zero_of_contains (mid : String) (calls : List MatchRow) :
    ∀ t : MatchesTable, containsMatch t mid = true →
      trueCountFor mid (runInserts t calls).1 = 0 := by
  induction calls with
  | nil => intro t _; simp [runInserts, trueCountFor]
  | cons r rs ih =>
    intro t h
    rw [runInserts_cons]
    rw [trueCountFor_cons]
    have hkeep : containsMatch (insert_match t r).2 mid = true :=
      containsMatch_insert_preserved t r mid h
    have hrest := ih (insert_match t r).2 hkeep
    by_cases hr : r.match_id = mid
    · have hc : containsMatch t r.match_id = true := by rw [hr]; exact h
      have hins : (insert_match t r).1 = false := by simp [insert_match, hc]
      simp [hins, hrest]
    · have hbeq : (r.match_id == mid) = false := by simp [hr]
      simp [hbeq, hrest]

theorem trueCountFor_le_one (mid : String) (calls : List MatchRow) :
    ∀ t : MatchesTable, trueCountFor mid (runInserts t calls).1 ≤ 1 := by
  induction calls with
  | nil => intro t; simp [runInserts, trueCountFor]
  | cons r rs ih =>
    intro t
    rw [runInserts_cons, trueCountFor_cons]
    by_cases hc : containsMatch t r.match_id = true
    · have hins : (insert_match t r).1 = false := by simp [insert_match, hc]
      have hrest := ih (insert_match t r).2
      simp [hins, hrest]
    · have hins : insert_match t r = (true, t ++ [r]) := by simp [insert_match, hc]
      by_cases hr : r.match_id = mid
      · have hcont : containsMatch (t ++ [r]) mid = true := by
          simp [containsMatch, List.any_append, hr]
        have h0 := trueCountFor_zero_of_contains mid rs (t ++ [r]) hcont
        rw [hins]
        simp only []
        have hbeq : (r.match_id == mid) = true := by simp [hr]
        simp [hbeq, h0]
      · have hbeq : (r.match_id == mid) = false := by simp [hr]
        have hrest := ih (insert_match t r).2
        simp [hbeq, hrest]

/-- C1: for every match identifier the matches row is written at most once
(first writer wins): an insert_match call for a match_id that already has a
row returns False and leaves the whole table (the existing row included)
unchanged, and over any sequence of insert_match calls &mdash; any
interleaving of the two pipelines' atomic conditional INSERTs &mdash; at
most one call for a given match_id returns True. -/
theorem match_row_written_at_most_once (t t0 : MatchesTable) (row : MatchRow)
    (calls : List MatchRow) (mid : String)
    (h : containsMatch t row.match_id = true) :
    insert_match t row = (false, t) ∧
    trueCountFor mid (runInserts t0 calls).1 ≤ 1 :=
  ⟨by simp [insert_match, h], trueCountFor_le_one mid calls t0⟩

theorem match_row_written_at_most_once_witness :
    containsMatch [⟨"NA1_1", "na1", "apex", "14.1", 1800, 0, "14.1", "CLASSIC", "a", "b"⟩]
        (MatchRow.match_id ⟨"NA1_1", "na1", "nexus", "14.2", 1900, 5, "14.2", "CLASSIC", "c", "d"⟩)
        = true ∧
    (insert_match [⟨"NA1_1", "na1", "apex", "14.1", 1800, 0, "14.1", "CLASSIC", "a", "b"⟩]
        ⟨"NA1_1", "na1", "nexus", "14.2", 1900, 5, "14.2", "CLASSIC", "c", "d"⟩
      = (false, [⟨"NA1_1", "na1", "apex", "14.1", 1800, 0, "14.1", "CLASSIC", "a", "b"⟩]) ∧
     trueCountFor "NA1_1"
        (runInserts []
          [⟨"NA1_1", "na1", "apex", "14.1", 1800, 0, "14.1", "CLASSIC", "a", "b"⟩,
           ⟨"NA1_1", "na1", "nexus", "14.2", 1900, 5, "14.2", "CLASSIC", "c", "d"⟩]).1 ≤ 1) :=
  ⟨by decide,
   match_row_written_at_most_once
     [⟨"NA1_1", "na1", "apex", "14.1", 1800, 0, "14.1", "CLASSIC", "a", "b"⟩] []
     ⟨"NA1_1", "na1", "nexus", "14.2", 1900, 5, "14.2", "CLASSIC", "c", "d"⟩
     [⟨"NA1_1", "na1", "apex", "14.1", 1800, 0, "14.1", "CLASSIC", "a", "b"⟩,
      ⟨"NA1_1", "na1", "nexus", "14.2", 1900, 5, "14.2", "CLASSIC", "c", "d"⟩]
     "NA1_1" (by decide)⟩

end MatchOps

namespace MatchLock

/-- C2, the failing interleaving: the table holds an expired apex lock for
match M1 (expired at 5, now = 10).  Caller A (apex) and caller B (nexus)
both run try_acquire; both SELECTs see the expired row, A deletes it and
inserts its fresh lock, then B's unconditional DELETE removes A's fresh
unexpired lock and B's INSERT succeeds.  Both callers return True &mdash;
the race the claim (and match_lock.py's own stated purpose of preventing
both services from collecting the same match) requires to end with at most
one winner ends with two, because the DELETE is not conditioned on the row
still being expired. -/
theorem lock_race_both_acquire :
    runSched 10 "M1" [true, false, true, true, false, false]
      [⟨"M1", "apex", 5⟩] ⟨"apex", Phase.start⟩ ⟨"nexus", Phase.start⟩
    = ([⟨"M1", "nexus", 3610⟩], ⟨"apex", Phase.finished true⟩,
       ⟨"nexus", Phase.finished true⟩) := by
  decide

theorem lookupLock_deleteLock (t : LockTable) (mid : String) :
    lookupLock (deleteLock t mid) mid = none := by
  induction t with
  | nil => rfl
  | cons r rs ih =>
    by_cases h : r.match_id = mid
    · simpa only [deleteLock, lookupLock, List.filter, h, beq_self_eq_true,
        Bool.not_true] using ih
    · have hbeq : (r.match_id == mid) = false := by simp [h]
      simp only [deleteLock, List.filter, hbeq, Bool.not_false, lookupLock,
        List.find?] at ih ⊢
      exact ih

theorem lookupLock_append_of_none (t : LockTable) (r : LockRow) (mid : String)
    (h : lookupLock t mid = none) (hr : r.match_id = mid) :
    lookupLock (t ++ [r]) mid = some r := by
  induction t with
  | nil => simp [lookupLock, List.find?, hr]
  | cons s ss ih =>
    cases hs : (s.match_id == mid) with
    | true =>
      rw [lookupLock, List.find?, hs] at h
      exact absurd h (by simp)
    | false =>
      rw [lookupLock, List.find?, hs] at h
      rw [List.cons_append, lookupLock, List.find?, hs]
      exact ih h

/-- C3: lock self-healing.  If the table holds a lock row for mid acquired
at t0 (so expiring at t0 + 3600, the fixed one-hour TTL), then at any time
now later than t0 + 3600 a try_acquire by any service &mdash; the original
holder never having called release &mdash; succeeds: the expired row is
detected and removed lazily, and the caller's fresh lock is in place
afterwards. -/
theorem lock_self_heals (t : LockTable) (mid holder service : String) (t0 now : Nat)
    (hrow : lookupLock t mid = some ⟨mid, holder, t0 + 3600⟩)
    (hlate : t0 + 3600 < now) :
    (try_acquire now t mid service).1 = true ∧
    lookupLock (try_acquire now t mid service).2 mid = some ⟨mid, service, now + 3600⟩ := by
  have hdel := lookupLock_deleteLock t mid
  have hins : insertLock now (deleteLock t mid) mid service
      = (true, deleteLock t mid ++ [⟨mid, service, now + 3600⟩]) := by
    simp [insertLock, hdel]
  have happ := lookupLock_append_of_none (deleteLock t mid)
    ⟨mid, service, now + 3600⟩ mid hdel rfl
  constructor
  · simp [try_acquire, hrow, hlate, hins]
  · simp [try_acquire, hrow, hlate, hins, happ]

theorem lock_self_heals_witness :
    lookupLock [⟨"M1", "apex", 0 + 3600⟩] "M1" = some ⟨"M1", "apex", 0 + 3600⟩ ∧
    0 + 3600 < 3700 ∧
    ((try_acquire 3700 [⟨"M1", "apex", 0 + 3600⟩] "M1" "nexus").1 = true ∧
     lookupLock (try_acquire 3700 [⟨"M1", "apex", 0 + 3600⟩] "M1" "nexus").2 "M1"
       = some ⟨"M1", "nexus", 3700 + 3600⟩) :=
  ⟨by decide, by decide,
   lock_self_heals [⟨"M1", "apex", 0 + 3600⟩] "M1" "apex" "nexus" 0 3700
     (by decide) (by decide)⟩

end MatchLock

theorem mem_insertSorted {α : Type} (le : α → α → Bool) (x a : α) :
    ∀ l : List α, a ∈ insertSorted le x l ↔ a = x ∨ a ∈ l := by
  intro l
  induction l with
  | nil => simp [insertSorted]
  | cons y ys ih =>
    simp only [insertSorted]
    split
    · simp [List.mem_cons]
    · simp only [List.mem_cons, ih]
      tauto

theorem mem_sortBy {α : Type} (le : α → α → Bool) (a : α) :
    ∀ l : List α, a ∈ sortBy le l ↔ a ∈ l := by
  intro l
  induction l with
  | nil => simp [sortBy]
  | cons y ys ih =>
    simp only [sortBy, mem_insertSorted, List.mem_cons, ih]

namespace PlayerOps

/-- C4, counterexample to the claim as stated: a player whose nexus_puuid
is already set to old-nexus has it overwritten by a later
update_nexus_puuid &mdash; the UPDATE carries no nexus_puuid IS NULL guard,
so a stored scoped identifier is not immutable. -/
theorem scoped_id_overwritten_cex :
    update_nexus_puuid
      [⟨"na1", "P", "T", some "apex-1", some "old-nexus", some "DIAMOND", 0⟩]
      "na1" "P" "T" "new-nexus"
    = (true, [⟨"na1", "P", "T", some "apex-1", some "new-nexus", some "DIAMOND", 0⟩]) := by
  decide

theorem update_nexus_puuid_keys (t : PlayersTable) (region gn tl np : String) :
    (update_nexus_puuid t region gn tl np).2.map natKey = t.map natKey := by
  simp only [update_nexus_puuid, List.map_map]
  apply List.map_congr_left
  intro p _
  by_cases h : keyMatches p region gn tl = true
  · simp [h, natKey, Function.comp]
  · simp [h, Function.comp]

theorem update_apex_puuid_keys (t : PlayersTable) (region gn tl ap : String) :
    (update_apex_puuid t region gn tl ap).2.map natKey = t.map natKey := by
  simp only [update_apex_puuid, List.map_map]
  apply List.map_congr_left
  intro p _
  by_cases h : keyMatches p region gn tl = true
  · simp [h, natKey, Function.comp]
  · simp [h, Function.comp]

theorem update_nexus_puuid_sets (t : PlayersTable) (region gn tl np : String) :
    ∀ p ∈ (update_nexus_puuid t region gn tl np).2,
      keyMatches p region gn tl = true → p.nexus_puuid = some np := by
  intro p hp hk
  simp only [update_nexus_puuid, List.mem_map] at hp
  obtain ⟨q, _, rfl⟩ := hp
  by_cases hkq : keyMatches q region gn tl = true
  · simp [hkq]
  · rw [if_neg hkq] at hk
    exact absurd hk hkq

theorem update_apex_puuid_sets (t : PlayersTable) (region gn tl ap : String) :
    ∀ p ∈ (update_apex_puuid t region gn tl ap).2,
      keyMatches p region gn tl = true → p.apex_puuid = some ap := by
  intro p hp hk
  simp only [update_apex_puuid, List.mem_map] at hp
  obtain ⟨q, _, rfl⟩ := hp
  by_cases hkq : keyMatches q region gn tl = true
  · simp [hkq]
  · rw [if_neg hkq] at hk
    exact absurd hk hkq

/-- C4 (amended): the scoped-identifier updates are unconditional, last
writer wins.  update_apex_puuid and update_nexus_puuid write the given
value to every row matching the natural key whether or not the stored
value was null (so a non-null value is clobbered by a later update, as the
counterexample shows); the UPDATE never inserts or removes a row and never
touches the natural key, so resolving the same player twice leaves exactly
one stored value (the most recent) and creates no duplicate natural-key
row. -/
theorem scoped_id_update_last_writer_wins (t : PlayersTable)
    (region gn tl np ap : String) :
    (update_nexus_puuid t region gn tl np).2.map natKey = t.map natKey ∧
    (∀ p ∈ (update_nexus_puuid t region gn tl np).2,
      keyMatches p region gn tl = true → p.nexus_puuid = some np) ∧
    (update_apex_puuid t region gn tl ap).2.map natKey = t.map natKey ∧
    (∀ p ∈ (update_apex_puuid t region gn tl ap).2,
      keyMatches p region gn tl = true → p.apex_puuid = some ap) :=
  ⟨update_nexus_puuid_keys t region gn tl np,
   update_nexus_puuid_sets t region gn tl np,
   update_apex_puuid_keys t region gn tl ap,
   update_apex_puuid_sets t region gn tl ap⟩

/-- C9: the identity-resolution candidate query never returns a player
whose tier is NULL.  The SQL predicate tier NOT IN ('CHALLENGER',
'GRANDMASTER') evaluates to UNKNOWN for a NULL tier, so the row is
rejected; hence a player with apex_puuid set, nexus_puuid missing
and no recorded tier is never selected, however large the limit. -/
theorem null_tier_never_selected (t : PlayersTable) (limit : Nat) (p : PlayerRow)
    (htier : p.tier = none) :
    p ∉ get_players_without_nexus_puuid t limit := by
  intro hmem
  have h1 : p ∈ sortBy candOrder (t.filter (fun p =>
      p.apex_puuid.isSome && p.nexus_puuid.isNone && tierNotChallGM p.tier)) :=
    List.mem_of_mem_take hmem
  have h2 := (mem_sortBy candOrder p _).1 h1
  have h3 := (List.mem_filter.1 h2).2
  rw [htier] at h3
  simp [tierNotChallGM] at h3

theorem null_tier_never_selected_witness :
    PlayerRow.tier ⟨"na1", "Seed", "X", some "apex-7", none, none, 50⟩ = none ∧
    ⟨"na1", "Seed", "X", some "apex-7", none, none, 50⟩ ∉
      get_players_without_nexus_puuid
        [⟨"na1", "Seed", "X", some "apex-7", none, none, 50⟩,
         ⟨"na1", "Other", "Y", some "apex-8", none, some "DIAMOND", 10⟩] 100 :=
  ⟨rfl,
   null_tier_never_selected
     [⟨"na1", "Seed", "X", some "apex-7", none, none, 50⟩,
      ⟨"na1", "Other", "Y", some "apex-8", none, some "DIAMOND", 10⟩] 100
     ⟨"na1", "Seed", "X", some "apex-7", none, none, 50⟩ rfl⟩

end PlayerOps

namespace RiotClient

/-- C7, counterexample to the claim as stated: a request answered with 429
(Retry-After 7) while a successful response would be available to a retry.
The client sleeps the 7 seconds but issues no further request and returns
None &mdash; the same value the caller gets for errors and not-found
&mdash; instead of retrying uncapped. -/
theorem quota_429_not_retried_cex :
    make_request [⟨429, some 7, none⟩, ⟨200, none, some "payload"⟩]
      = { result := none, slept := 7, requestsSent := 1 } := by
  decide

/-- C7 (amended): on a quota-exceeded (429) response the client honors the
server-provided retry delay &mdash; it sleeps Retry-After seconds,
defaulting to 60 when the header is absent &mdash; but then returns None
to the caller without retrying: exactly one request is sent, and the
occurrence is surfaced as the same empty result (None) the caller receives
for errors and not-found. -/
theorem quota_429_sleep_then_none (responses : List HttpResponse) (r : HttpResponse)
    (rest : List HttpResponse) (hr : responses = r :: rest) (h429 : r.status = 429) :
    make_request responses
      = { result := none, slept := r.retryAfter.getD 60, requestsSent := 1 } := by
  subst hr
  simp [make_request, h429]

theorem quota_429_sleep_then_none_witness :
    ([⟨429, some 7, none⟩, ⟨200, none, some "payload"⟩] :
        List HttpResponse) = ⟨429, some 7, none⟩ :: [⟨200, none, some "payload"⟩] ∧
    HttpResponse.status ⟨429, some 7, none⟩ = 429 ∧
    make_request [⟨429, some 7, none⟩, ⟨200, none, some "payload"⟩]
      = { result := none,
          slept := (HttpResponse.retryAfter ⟨429, some 7, none⟩).getD 60,
          requestsSent := 1 } :=
  ⟨rfl, rfl,
   quota_429_sleep_then_none [⟨429, some 7, none⟩, ⟨200, none, some "payload"⟩]
     ⟨429, some 7, none⟩ [⟨200, none, some "payload"⟩] rfl rfl⟩

end RiotClient

namespace QueueManager

theorem minByNext_eq_none (l : List PlayerRow) (h : minByNext l = none) : l = [] := by
  cases l with
  | nil => rfl
  | cons q qs =>
    exfalso
    cases hm : minByNext qs with
    | none =>
      simp only [minByNext, hm] at h
      exact Option.noConfusion h
    | some r =>
      simp only [minByNext, hm] at h
      by_cases hle : q.next_check_after ≤ r.next_check_after
      · rw [if_pos hle] at h; cases h
      · rw [if_neg hle] at h; cases h

theorem minByNext_cons_isSome (q : PlayerRow) (qs : List PlayerRow) :
    ∃ p, minByNext (q :: qs) = some p := by
  cases hm : minByNext qs with
  | none => exact ⟨q, by simp only [minByNext, hm]⟩
  | some r =>
    by_cases hle : q.next_check_after ≤ r.next_check_after
    · exact ⟨q, by simp only [minByNext, hm]; rw [if_pos hle]⟩
    · exact ⟨r, by simp only [minByNext, hm]; rw [if_neg hle]⟩

theorem minByNext_mem : ∀ (l : List PlayerRow) (p : PlayerRow),
    minByNext l = some p → p ∈ l := by
  intro l
  induction l with
  | nil => intro p h; cases h
  | cons q qs ih =>
    intro p h
    cases hm : minByNext qs with
    | none =>
      simp only [minByNext, hm] at h
      cases h
      exact List.mem_cons_self q qs
    | some r =>
      simp only [minByNext, hm] at h
      by_cases hle : q.next_check_after ≤ r.next_check_after
      · rw [if_pos hle] at h
        cases h
        exact List.mem_cons_self q qs
      · rw [if_neg hle] at h
        cases h
        exact List.mem_cons_of_mem q (ih p hm)

theorem minByNext_le : ∀ (l : List PlayerRow) (p : PlayerRow),
    minByNext l = some p →
      ∀ q ∈ l, p.next_check_after ≤ q.next_check_after := by
  intro l
  induction l with
  | nil => intro p h; cases h
  | cons q qs ih =>
    intro p h w hw
    cases hm : minByNext qs with
    | none =>
      simp only [minByNext, hm] at h
      cases h
      have : qs = [] := minByNext_eq_none qs hm
      subst this
      rcases List.mem_cons.1 hw with rfl | hw'
      · exact Nat.le_refl _
      · cases hw'
    | some r =>
      simp only [minByNext, hm] at h
      by_cases hle : q.next_check_after ≤ r.next_check_after
      · rw [if_pos hle] at h
        cases h
        rcases List.mem_cons.1 hw with rfl | hw'
        · exact Nat.le_refl _
        · exact Nat.le_trans hle (ih r hm w hw')
      · rw [if_neg hle] at h
        cases h
        rcases List.mem_cons.1 hw with rfl | hw'
        · exact Nat.le_of_lt (Nat.lt_of_not_le hle)
        · exact ih p hm w hw'

theorem tierQuery_mem_spec (players : List PlayerRow) (now : Nat)
    (region tier : String) (p : PlayerRow)
    (h : tierQuery players now region tier = some p) :
    p ∈ players ∧ p.next_check_after < now ∧ p.region = region ∧
      p.tier = some tier := by
  have hmem := minByNext_mem _ p h
  obtain ⟨hpl, hcond⟩ := List.mem_filter.1 hmem
  simp only [Bool.and_eq_true, decide_eq_true_eq, beq_iff_eq] at hcond
  exact ⟨hpl, hcond.1.1, hcond.1.2, hcond.2⟩

theorem tierQuery_isSome_of_due (players : List PlayerRow) (now : Nat)
    (region tier : String) (p : PlayerRow) (hp : p ∈ players)
    (hdue : p.next_check_after < now) (hreg : p.region = region)
    (htier : p.tier = some tier) :
    ∃ q, tierQuery players now region tier = some q := by
  unfold tierQuery
  rcases hl : players.filter (fun p =>
      decide (p.next_check_after < now) && p.region == region &&
        p.tier == some tier) with _ | ⟨a, as⟩
  · exfalso
    have hmem : p ∈ players.filter (fun p =>
        decide (p.next_check_after < now) && p.region == region &&
          p.tier == some tier) :=
      List.mem_filter.2 ⟨hp, by simp [hdue, hreg, htier]⟩
    rw [hl] at hmem
    cases hmem
  · rw [hl]
    exact minByNext_cons_isSome a as

theorem cascade_first_hit (players : List PlayerRow) (now : Nat) (region : String) :
    ∀ (tiers : List String) (T : String), T ∈ tiers →
      (∃ w, tierQuery players now region T = some w) →
      ∃ q T', cascade players now region tiers = some q ∧
        tierQuery players now region T' = some q ∧ T' ∈ tiers ∧
        List.indexOf T' tiers ≤ List.indexOf T tiers := by
  intro tiers
  induction tiers with
  | nil => intro T hT; cases hT
  | cons t ts ih =>
    intro T hT hsome
    cases hq : tierQuery players now region t with
    | some q =>
      refine ⟨q, t, ?_, hq, List.mem_cons_self t ts, ?_⟩
      · simp [cascade, hq]
      · rw [List.indexOf_cons_self]
        exact Nat.zero_le _
    | none =>
      have hTne : T ≠ t := by
        rintro rfl
        obtain ⟨w, hw⟩ := hsome
        rw [hq] at hw
        cases hw
      have hT' : T ∈ ts := by
        rcases List.mem_cons.1 hT with rfl | h
        · exact absurd rfl hTne
        · exact h
      obtain ⟨q, T', hca, hq', hT'mem, hle⟩ := ih T hT' hsome
      have hT'ne : T' ≠ t := by
        rintro rfl
        rw [hq] at hq'
        cases hq'
      refine ⟨q, T', ?_, hq', List.mem_cons_of_mem t hT'mem, ?_⟩
      · simp [cascade, hq, hca]
      · rw [List.indexOf_cons_ne ts (Ne.symm hT'ne),
            List.indexOf_cons_ne ts (Ne.symm hTne)]
        exact Nat.succ_le_succ hle

/-- C5, counterexample to the claim as stated: with the claim's reading of
due as next-eligible-time at most now, a CHALLENGER player whose
next_check_after equals now is due, yet get_next_player returns the IRON
player instead &mdash; the SQL comparison at queue_manager.py:46 is the
strict next_check_after less than CURRENT_TIMESTAMP, so the boundary
instant is excluded from every tier query. -/
theorem tier_cascade_boundary_cex :
    PlayerRow.next_check_after ⟨"c1", "na1", some "CHALLENGER", 10⟩ ≤ 10 ∧
    PlayerRow.tier ⟨"c1", "na1", some "CHALLENGER", 10⟩ = some "CHALLENGER" ∧
    get_next_player
      [⟨"c1", "na1", some "CHALLENGER", 10⟩, ⟨"i1", "na1", some "IRON", 9⟩]
      10 "na1"
      = some ⟨"i1", "na1", some "IRON", 9⟩ := by
  decide

/-- C5 (amended): tier cascade with the code's strict dueness.  For every
region, whenever some player of tier T is due &mdash; next-eligible-time
strictly earlier than now &mdash; get_next_player returns a due player of
that region whose tier comes no later than T in the fixed order
CHALLENGER down to IRON, regardless of how much more overdue any
lower-tier player is: the tiers are tried in TIER_ORDER and the first
tier holding a due entry wins. -/
theorem tier_cascade_prefers_higher (players : List PlayerRow) (now : Nat)
    (region T : String) (p : PlayerRow)
    (hp : p ∈ players) (hreg : p.region = region) (htier : p.tier = some T)
    (hdue : p.next_check_after < now) (hT : T ∈ TIER_ORDER) :
    ∃ q T', get_next_player players now region = some q ∧
      q.region = region ∧ q.next_check_after < now ∧ q.tier = some T' ∧
      List.indexOf T' TIER_ORDER ≤ List.indexOf T TIER_ORDER := by
  have hsome := tierQuery_isSome_of_due players now region T p hp hdue hreg htier
  obtain ⟨q, T', hca, hq', _, hle⟩ :=
    cascade_first_hit players now region TIER_ORDER T hT hsome
  obtain ⟨_, hqdue, hqreg, hqtier⟩ := tierQuery_mem_spec players now region T' q hq'
  exact ⟨q, T', hca, hqreg, hqdue, hqtier, hle⟩

theorem tier_cascade_prefers_higher_witness :
    ⟨"c1", "na1", some "CHALLENGER", 3⟩ ∈
        ([⟨"c1", "na1", some "CHALLENGER", 3⟩, ⟨"i1", "na1", some "IRON", 1⟩] :
          List PlayerRow) ∧
    PlayerRow.region ⟨"c1", "na1", some "CHALLENGER", 3⟩ = "na1" ∧
    PlayerRow.tier ⟨"c1", "na1", some "CHALLENGER", 3⟩ = some "CHALLENGER" ∧
    PlayerRow.next_check_after ⟨"c1", "na1", some "CHALLENGER", 3⟩ < 10 ∧
    "CHALLENGER" ∈ TIER_ORDER ∧
    (∃ q T', get_next_player
        [⟨"c1", "na1", some "CHALLENGER", 3⟩, ⟨"i1", "na1", some "IRON", 1⟩]
        10 "na1" = some q ∧
      q.region = "na1" ∧ q.next_check_after < 10 ∧ q.tier = some T' ∧
      List.indexOf T' TIER_ORDER ≤ List.indexOf "CHALLENGER" TIER_ORDER) :=
  ⟨by decide, by decide, by decide, by decide, by decide,
   tier_cascade_prefers_higher
     [⟨"c1", "na1", some "CHALLENGER", 3⟩, ⟨"i1", "na1", some "IRON", 1⟩]
     10 "na1" "CHALLENGER" ⟨"c1", "na1", some "CHALLENGER", 3⟩
     (by decide) (by decide) (by decide) (by decide) (by decide)⟩

theorem tierQuery_none_of_nodue (players : List PlayerRow) (now : Nat)
    (region tier : String)
    (h : ∀ p ∈ players, p.region = region → ¬ p.next_check_after < now) :
    tierQuery players now region tier = none := by
  unfold tierQuery
  have hnil : players.filter (fun p =>
      decide (p.next_check_after < now) && p.region == region &&
        p.tier == some tier) = [] := by
    rw [List.filter_eq_nil_iff]
    intro p hp
    simp only [Bool.and_eq_true, decide_eq_true_eq, beq_iff_eq, not_and]
    intro hcond
    exact absurd hcond.1 (h p hp hcond.2)
  rw [hnil]
  rfl

theorem cascade_none_of_nodue (players : List PlayerRow) (now : Nat) (region : String)
    (h : ∀ p ∈ players, p.region = region → ¬ p.next_check_after < now) :
    ∀ tiers : List String, cascade players now region tiers = none := by
  intro tiers
  induction tiers with
  | nil => rfl
  | cons t ts ih =>
    simp [cascade, tierQuery_none_of_nodue players now region t h, ih]

/-- C6: fallback liveness.  For every region holding at least one player
row, when no player of the region is due the worker's selection &mdash;
get_next_player falling back to get_oldest_checked_player, as in
RegionCollector.run &mdash; still returns a player rather than none, and
that player is a globally stalest one: its next-eligible-time is at most
that of every player of the region. -/
theorem fallback_liveness (players : List PlayerRow) (now : Nat) (region : String)
    (hexists : ∃ p ∈ players, p.region = region)
    (hnodue : ∀ p ∈ players, p.region = region → ¬ p.next_check_after < now) :
    ∃ p, selectPlayer players now region = some p ∧ p.region = region ∧
      ∀ q ∈ players, q.region = region →
        p.next_check_after ≤ q.next_check_after := by
  have hgnp : get_next_player players now region = none :=
    cascade_none_of_nodue players now region hnodue TIER_ORDER
  obtain ⟨w, hw, hwr⟩ := hexists
  have hwmem : w ∈ players.filter (fun p => p.region == region) :=
    List.mem_filter.2 ⟨hw, by simp [hwr]⟩
  rcases hl : players.filter (fun p => p.region == region) with _ | ⟨a, as⟩
  · rw [hl] at hwmem
    cases hwmem
  · obtain ⟨p, hp⟩ := minByNext_cons_isSome a as
    have hsel : selectPlayer players now region = some p := by
      unfold selectPlayer get_oldest_checked_player
      rw [hgnp, hl, hp]
    have hpmem : p ∈ players.filter (fun p => p.region == region) := by
      rw [hl]
      exact minByNext_mem _ p hp
    obtain ⟨_, hpreg⟩ := List.mem_filter.1 hpmem
    refine ⟨p, hsel, by simpa using hpreg, ?_⟩
    intro q hq hqreg
    have hqmem : q ∈ players.filter (fun p => p.region == region) :=
      List.mem_filter.2 ⟨hq, by simp [hqreg]⟩
    rw [hl] at hqmem
    exact minByNext_le _ p hp q hqmem

theorem fallback_liveness_witness :
    (∃ p ∈ ([⟨"g1", "na1", some "GOLD", 100⟩, ⟨"d1", "na1", some "DIAMOND", 120⟩] :
        List PlayerRow), p.region = "na1") ∧
    (∀ p ∈ ([⟨"g1", "na1", some "GOLD", 100⟩, ⟨"d1", "na1", some "DIAMOND", 120⟩] :
        List PlayerRow), p.region = "na1" → ¬ p.next_check_after < 50) ∧
    (∃ p, selectPlayer
        [⟨"g1", "na1", some "GOLD", 100⟩, ⟨"d1", "na1", some "DIAMOND", 120⟩]
        50 "na1" = some p ∧ p.region = "na1" ∧
      ∀ q ∈ ([⟨"g1", "na1", some "GOLD", 100⟩, ⟨"d1", "na1", some "DIAMOND", 120⟩] :
          List PlayerRow), q.region = "na1" →
        p.next_check_after ≤ q.next_check_after) :=
  ⟨by decide, by decide,
   fallback_liveness
     [⟨"g1", "na1", some "GOLD", 100⟩, ⟨"d1", "na1", some "DIAMOND", 120⟩]
     50 "na1" (by decide) (by decide)⟩

end QueueManager

namespace RegionalRateLimiter

theorem runAcquires_succ (C W n t : Nat) (b : Bucket) :
    runAcquires C W (n + 1) t b =
      (((acquire C W t b).1, (acquire C W t b).2.window_start) ::
          (runAcquires C W n (acquire C W t b).1 (acquire C W t b).2).1,
        (runAcquires C W n (acquire C W t b).1 (acquire C W t b).2).2.1,
        (runAcquires C W n (acquire C W t b).1 (acquire C W t b).2).2.2) :=
  rfl

theorem acquire_reset (C W t : Nat) (b : Bucket) (hC : 1 ≤ C)
    (h : b.window_start + W ≤ t) :
    acquire C W t b = (t, ⟨C - 1, t⟩) := by
  have h0 : 0 < C := hC
  simp [acquire, h, h0]

theorem acquire_grant (C W t : Nat) (b : Bucket)
    (hnr : ¬ b.window_start + W ≤ t) (htok : 0 < b.tokens) :
    acquire C W t b = (t, ⟨b.tokens - 1, b.window_start⟩) := by
  simp [acquire, hnr, htok]

theorem acquire_sleep (C W t : Nat) (b : Bucket)
    (hnr : ¬ b.window_start + W ≤ t) (htok : b.tokens = 0) :
    acquire C W t b = (b.window_start + W, ⟨C - 1, b.window_start + W⟩) := by
  simp [acquire, hnr, htok]

theorem grantsInWindow_cons (w : Nat) (gw : Nat × Nat) (tr : List (Nat × Nat)) :
    grantsInWindow w (gw :: tr) =
      (if gw.2 = w then 1 else 0) + grantsInWindow w tr := by
  simp only [grantsInWindow, List.filter]
  by_cases h : gw.2 = w
  · have hb : (gw.2 == w) = true := by simp [h]
    rw [if_pos h]
    simp [hb, Nat.add_comm]
  · have hb : (gw.2 == w) = false := by simp [h]
    rw [if_neg h]
    simp [hb]

theorem grantsInWindow_zero_of_lt (w x : Nat) (tr : List (Nat × Nat))
    (h : ∀ gw ∈ tr, x ≤ gw.2) (hwx : w < x) : grantsInWindow w tr = 0 := by
  simp only [grantsInWindow, List.length_eq_zero, List.filter_eq_nil_iff]
  intro gw hgw
  simp only [beq_iff_eq]
  intro he
  have hx := h gw hgw
  omega

theorem runAcquires_length (C W : Nat) :
    ∀ (n t : Nat) (b : Bucket), (runAcquires C W n t b).1.length = n := by
  intro n
  induction n with
  | zero => intro t b; rfl
  | succ n ih =>
    intro t b
    rw [runAcquires_succ]
    simp only [List.length_cons, ih]

theorem runAcquires_inv (C W : Nat) (hC : 1 ≤ C) (hW : 1 ≤ W) :
    ∀ (n t : Nat) (b : Bucket), b.window_start ≤ t → b.tokens ≤ C →
      (∀ gw ∈ (runAcquires C W n t b).1, b.window_start ≤ gw.2) ∧
      (∀ w, grantsInWindow w (runAcquires C W n t b).1 ≤
        if w = b.window_start then b.tokens else C) := by
  intro n
  induction n with
  | zero =>
    intro t b hws htok
    constructor
    · intro gw hgw
      cases hgw
    · intro w
      simp only [runAcquires, grantsInWindow, List.filter, List.length_nil]
      split <;> omega
  | succ n ih =>
    intro t b hws htok
    by_cases hr : b.window_start + W ≤ t
    · -- window elapsed: refill at t, take one token, grant at t
      have hacq := acquire_reset C W t b hC hr
      rw [runAcquires_succ, hacq]
      dsimp only
      have hwslt : b.window_start < t := by omega
      obtain ⟨ihtags, ihcount⟩ :=
        ih t ⟨C - 1, t⟩ (Nat.le_refl t) (Nat.sub_le C 1)
      dsimp only at ihtags ihcount
      constructor
      · intro gw hgw
        rcases List.mem_cons.1 hgw with rfl | hgw'
        · exact hws
        · exact Nat.le_trans (Nat.le_of_lt hwslt) (ihtags gw hgw')
      · intro w
        rw [grantsInWindow_cons]
        have hcnt := ihcount w
        by_cases hwt : w = t
        · rw [if_pos hwt.symm]
          rw [if_pos hwt] at hcnt
          have hwb : ¬ w = b.window_start := by omega
          rw [if_neg hwb]
          omega
        · rw [if_neg (fun he : t = w => hwt he.symm)]
          rw [if_neg hwt] at hcnt
          by_cases hwb : w = b.window_start
          · rw [if_pos hwb]
            have hwlt : w < t := by omega
            have hrest := grantsInWindow_zero_of_lt w t _ ihtags hwlt
            omega
          · rw [if_neg hwb]
            omega
    · by_cases htk : 0 < b.tokens
      · -- token available in the current window: grant at t
        have hacq := acquire_grant C W t b hr htk
        rw [runAcquires_succ, hacq]
        dsimp only
        obtain ⟨ihtags, ihcount⟩ :=
          ih t ⟨b.tokens - 1, b.window_start⟩ hws
            (Nat.le_trans (Nat.sub_le b.tokens 1) htok)
        dsimp only at ihtags ihcount
        constructor
        · intro gw hgw
          rcases List.mem_cons.1 hgw with rfl | hgw'
          · exact Nat.le_refl _
          · exact ihtags gw hgw'
        · intro w
          rw [grantsInWindow_cons]
          have hcnt := ihcount w
          by_cases hwb : w = b.window_start
          · rw [if_pos hwb.symm, if_pos hwb]
            rw [if_pos hwb] at hcnt
            omega
          · rw [if_neg (fun he : b.window_start = w => hwb he.symm), if_neg hwb]
            rw [if_neg hwb] at hcnt
            omega
      · -- exhausted: sleep to the end of the window, refill, grant there
        have htok0 : b.tokens = 0 := by omega
        have hacq := acquire_sleep C W t b hr htok0
        rw [runAcquires_succ, hacq]
        dsimp only
        obtain ⟨ihtags, ihcount⟩ :=
          ih (b.window_start + W) ⟨C - 1, b.window_start + W⟩
            (Nat.le_refl _) (Nat.sub_le C 1)
        dsimp only at ihtags ihcount
        constructor
        · intro gw hgw
          rcases List.mem_cons.1 hgw with rfl | hgw'
          · exact Nat.le_add_right _ W
          · exact Nat.le_trans (Nat.le_add_right _ W) (ihtags gw hgw')
        · intro w
          rw [grantsInWindow_cons]
          have hcnt := ihcount w
          by_cases hww : w = b.window_start + W
          · rw [if_pos hww.symm]
            rw [if_pos hww] at hcnt
            have hwb : ¬ w = b.window_start := by omega
            rw [if_neg hwb]
            omega
          · rw [if_neg (fun he : b.window_start + W = w => hww he.symm)]
            rw [if_neg hww] at hcnt
            by_cases hwb : w = b.window_start
            · rw [if_pos hwb]
              have hwlt : w < b.window_start + W := by omega
              have hrest := grantsInWindow_zero_of_lt w (b.window_start + W) _ ihtags hwlt
              omega
            · rw [if_neg hwb]
              omega

theorem runAcquires_budget (C W : Nat) (hC : 1 ≤ C) (hW : 1 ≤ W) :
    ∀ (n t : Nat) (b : Bucket), b.window_start ≤ t → b.tokens ≤ C →
      W * n + C * b.window_start ≤
        W * b.tokens + C * (runAcquires C W n t b).2.2.window_start := by
  intro n
  induction n with
  | zero =>
    intro t b hws htok
    simp only [runAcquires, Nat.mul_zero, Nat.zero_add]
    exact Nat.le_add_left _ _
  | succ n ih =>
    intro t b hws htok
    have hmn : W * (n + 1) = W * n + W := Nat.mul_succ W n
    by_cases hr : b.window_start + W ≤ t
    · have hacq := acquire_reset C W t b hC hr
      rw [runAcquires_succ, hacq]
      dsimp only
      have ih' := ih t ⟨C - 1, t⟩ (Nat.le_refl t) (Nat.sub_le C 1)
      dsimp only at ih'
      have hm1 : W * (C - 1) + W = W * C := by
        have hc1 : C - 1 + 1 = C := by omega
        calc W * (C - 1) + W = W * (C - 1 + 1) := by rw [Nat.mul_succ]
          _ = W * C := by rw [hc1]
      have hm2 : C * (b.window_start + W) ≤ C * t := Nat.mul_le_mul_left C hr
      have hm3 : C * (b.window_start + W) = C * b.window_start + C * W :=
        Nat.mul_add C _ _
      have hm4 : C * W = W * C := Nat.mul_comm C W
      linarith [Nat.zero_le (W * b.tokens)]
    · by_cases htk : 0 < b.tokens
      · have hacq := acquire_grant C W t b hr htk
        rw [runAcquires_succ, hacq]
        dsimp only
        have ih' := ih t ⟨b.tokens - 1, b.window_start⟩ hws
          (Nat.le_trans (Nat.sub_le b.tokens 1) htok)
        dsimp only at ih'
        have hm1 : W * (b.tokens - 1) + W = W * b.tokens := by
          have hc1 : b.tokens - 1 + 1 = b.tokens := by omega
          calc W * (b.tokens - 1) + W = W * (b.tokens - 1 + 1) := by rw [Nat.mul_succ]
            _ = W * b.tokens := by rw [hc1]
        linarith
      · have htok0 : b.tokens = 0 := by omega
        have hacq := acquire_sleep C W t b hr htok0
        rw [runAcquires_succ, hacq]
        dsimp only
        have ih' := ih (b.window_start + W) ⟨C - 1, b.window_start + W⟩
          (Nat.le_refl _) (Nat.sub_le C 1)
        dsimp only at ih'
        have hm0 : W * b.tokens = 0 := by rw [htok0, Nat.mul_zero]
        have hm1 : W * (C - 1) + W = W * C := by
          have hc1 : C - 1 + 1 = C := by omega
          calc W * (C - 1) + W = W * (C - 1 + 1) := by rw [Nat.mul_succ]
            _ = W * C := by rw [hc1]
        have hm3 : C * (b.window_start + W) = C * b.window_start + C * W :=
          Nat.mul_add C _ _
        have hm4 : C * W = W * C := Nat.mul_comm C W
        linarith

theorem runAcquires_finish_ge_ws (C W : Nat) (hC : 1 ≤ C) :
    ∀ (n t : Nat) (b : Bucket), b.window_start ≤ t →
      (runAcquires C W n t b).2.2.window_start ≤ (runAcquires C W n t b).2.1 := by
  intro n
  induction n with
  | zero => intro t b hws; exact hws
  | succ n ih =>
    intro t b hws
    by_cases hr : b.window_start + W ≤ t
    · rw [runAcquires_succ, acquire_reset C W t b hC hr]
      dsimp only
      exact ih t ⟨C - 1, t⟩ (Nat.le_refl t)
    · by_cases htk : 0 < b.tokens
      · rw [runAcquires_succ, acquire_grant C W t b hr htk]
        dsimp only
        exact ih t ⟨b.tokens - 1, b.window_start⟩ hws
      · have htok0 : b.tokens = 0 := by omega
        rw [runAcquires_succ, acquire_sleep C W t b hr htok0]
        dsimp only
        exact ih (b.window_start + W) ⟨C - 1, b.window_start + W⟩ (Nat.le_refl _)

/-- C8: rate budget.  For capacity C per window of W seconds (both at
least 1, as in the settings defaults 100 and 120), every acquire call on a
bucket grants exactly one unit (the trace of n back-to-back calls has n
grants, each handed out no earlier than it was requested), no single
limiter window ever observes more than C granted acquisitions, and
issuing 3C back-to-back acquire calls against a fresh bucket takes no
less than 2 times W of elapsed time. -/
theorem rate_budget (C W t0 n w : Nat) (hC : 1 ≤ C) (hW : 1 ≤ W) :
    (runAcquires C W n t0 ⟨C, t0⟩).1.length = n ∧
    grantsInWindow w (runAcquires C W n t0 ⟨C, t0⟩).1 ≤ C ∧
    t0 + 2 * W ≤ (runAcquires C W (3 * C) t0 ⟨C, t0⟩).2.1 := by
  refine ⟨runAcquires_length C W n t0 _, ?_, ?_⟩
  · have h := (runAcquires_inv C W hC hW n t0 ⟨C, t0⟩
      (Nat.le_refl t0) (Nat.le_refl C)).2 w
    dsimp only at h
    by_cases hw : w = t0
    · rw [if_pos hw] at h
      exact h
    · rw [if_neg hw] at h
      exact h
  · have hb := runAcquires_budget C W hC hW (3 * C) t0 ⟨C, t0⟩
      (Nat.le_refl t0) (Nat.le_refl C)
    dsimp only at hb
    have hfin := runAcquires_finish_ge_ws C W hC (3 * C) t0 ⟨C, t0⟩ (Nat.le_refl t0)
    have hkey : C * (t0 + 2 * W) ≤
        C * (runAcquires C W (3 * C) t0 ⟨C, t0⟩).2.2.window_start := by
      have e1 : W * (3 * C) = 3 * (C * W) := by ring
      have e2 : C * (t0 + 2 * W) = C * t0 + 2 * (C * W) := by ring
      have e3 : W * C = C * W := Nat.mul_comm W C
      linarith
    have hle := Nat.le_of_mul_le_mul_left hkey (by omega : 0 < C)
    omega

theorem rate_budget_witness :
    1 ≤ 1 ∧ 1 ≤ 2 ∧
    ((runAcquires 1 2 4 0 ⟨1, 0⟩).1.length = 4 ∧
     grantsInWindow 0 (runAcquires 1 2 4 0 ⟨1, 0⟩).1 ≤ 1 ∧
     0 + 2 * 2 ≤ (runAcquires 1 2 (3 * 1) 0 ⟨1, 0⟩).2.1) :=
  ⟨by decide, by decide, rate_budget 1 2 0 4 0 (by decide) (by decide)⟩

end RegionalRateLimiter

theorem pairwise_insertSorted {α : Type} (le : α → α → Bool)
    (htot : ∀ a b, le a b = true ∨ le b a = true)
    (htr : ∀ a b c, le a b = true → le b c = true → le a c = true)
    (x : α) : ∀ l : List α, List.Pairwise (fun a b => le a b = true) l →
      List.Pairwise (fun a b => le a b = true) (insertSorted le x l) := by
  intro l
  induction l with
  | nil => intro _; exact List.pairwise_singleton _ x
  | cons y ys ih =>
    intro hp
    obtain ⟨hy, hys⟩ := List.pairwise_cons.1 hp
    rw [insertSorted]
    by_cases hxy : le x y = true
    · rw [if_pos hxy]
      refine List.Pairwise.cons ?_ hp
      intro z hz
      rcases List.mem_cons.1 hz with rfl | hz'
      · exact hxy
      · exact htr x y z hxy (hy z hz')
    · rw [if_neg hxy]
      have hyx : le y x = true := (htot x y).resolve_left hxy
      refine List.Pairwise.cons ?_ (ih hys)
      intro z hz
      rcases (mem_insertSorted le x z ys).1 hz with rfl | hz'
      · exact hyx
      · exact hy z hz'

theorem pairwise_sortBy {α : Type} (le : α → α → Bool)
    (htot : ∀ a b, le a b = true ∨ le b a = true)
    (htr : ∀ a b c, le a b = true → le b c = true → le a c = true) :
    ∀ l : List α, List.Pairwise (fun a b => le a b = true) (sortBy le l) := by
  intro l
  induction l with
  | nil => exact List.Pairwise.nil
  | cons x xs ih => exact pairwise_insertSorted le htot htr x (sortBy le xs) ih

theorem filterMap_head_best {α β : Type} (le : α → α → Bool) (f : α → Option β) :
    ∀ (l : List α) (p : β) (rest : List β),
      List.Pairwise (fun a b => le a b = true) l →
      l.filterMap f = p :: rest →
      ∃ q, q ∈ l ∧ f q = some p ∧
        ∀ q' ∈ l, f q' ≠ none → q' = q ∨ le q q' = true := by
  intro l
  induction l with
  | nil =>
    intro p rest _ h
    cases h
  | cons a l' ih =>
    intro p rest hp hfm
    obtain ⟨ha, hl'⟩ := List.pairwise_cons.1 hp
    cases hfa : f a with
    | some v =>
      rw [List.filterMap_cons_some hfa] at hfm
      have hv : v = p := (List.cons.inj hfm).1
      refine ⟨a, List.mem_cons_self a l', by rw [hfa, hv], ?_⟩
      intro q' hq' _
      rcases List.mem_cons.1 hq' with rfl | hq''
      · exact Or.inl rfl
      · exact Or.inr (ha q' hq'')
    | none =>
      rw [List.filterMap_cons_none hfa] at hfm
      obtain ⟨q, hq, hfq, hbest⟩ := ih p rest hl' hfm
      refine ⟨q, List.mem_cons_of_mem a hq, hfq, ?_⟩
      intro q' hq' hne
      rcases List.mem_cons.1 hq' with rfl | hq''
      · exact absurd hfa hne
      · exact hbest q' hq'' hne

namespace QueueOps

theorem queueOrder_total (a b : QueueEntry) :
    queueOrder a b = true ∨ queueOrder b a = true := by
  simp only [queueOrder, Bool.or_eq_true, Bool.and_eq_true, decide_eq_true_eq,
    beq_iff_eq]
  omega

theorem queueOrder_trans (a b c : QueueEntry) (hab : queueOrder a b = true)
    (hbc : queueOrder b c = true) : queueOrder a c = true := by
  simp only [queueOrder, Bool.or_eq_true, Bool.and_eq_true, decide_eq_true_eq,
    beq_iff_eq] at hab hbc ⊢
  omega

theorem duePending_mem_spec (qs : List QueueEntry) (queue_type : String) (now : Nat)
    (q : QueueEntry) (h : q ∈ duePending qs queue_type now) :
    q ∈ qs ∧ q.queue_type = queue_type ∧ q.next_check ≤ now ∧
      q.status = QStatus.pending := by
  obtain ⟨hmem, hcond⟩ := List.mem_filter.1 h
  simp only [Bool.and_eq_true, decide_eq_true_eq, beq_iff_eq] at hcond
  exact ⟨hmem, hcond.1.1, hcond.1.2, hcond.2⟩

theorem joinPlayer_region (players : List PlayerOps.PlayerRow) (q : QueueEntry)
    (p : PlayerOps.PlayerRow) (h : joinPlayer players q = some p) :
    p.region = q.region := by
  have := List.find?_some h
  simp only [Bool.and_eq_true, beq_iff_eq] at this
  exact this.1.1

/-- C10: the queue pop used by the per-region worker threads is not
region-scoped, and a cross-region head is skipped in place.  When the head
of the apex queue (get_next_from_queue, which selects due pending entries
of every region, ordered by priority DESC then next_check ASC) is a player
of a region other than the worker's, the worker's iteration leaves the
queue table completely unchanged &mdash; no status transition, no
next_check change &mdash; so the very same entry is returned at the head
again; the underlying entry is a due pending apex row of the player's own
(foreign) region, and it is queueOrder-maximal among all due pending apex
entries that join to a player. -/
theorem cross_region_queue_skip (qs : List QueueEntry)
    (players : List PlayerOps.PlayerRow) (region : String) (now : Nat)
    (p : PlayerOps.PlayerRow) (rest : List PlayerOps.PlayerRow)
    (hsel : get_next_from_queue qs players "apex" now 1 = p :: rest)
    (hreg : p.region ≠ region) :
    processRegionStep qs players region now = (qs, none) ∧
    get_next_from_queue (processRegionStep qs players region now).1 players
      "apex" now 1 = p :: rest ∧
    ∃ q, q ∈ qs ∧ q.queue_type = "apex" ∧ q.status = QStatus.pending ∧
      q.next_check ≤ now ∧ q.region = p.region ∧ joinPlayer players q = some p ∧
      ∀ q' ∈ duePending qs "apex" now, joinPlayer players q' ≠ none →
        q' = q ∨ queueOrder q q' = true := by
  have hstep : processRegionStep qs players region now = (qs, none) := by
    rw [processRegionStep, hsel]
    simp [hreg]
  refine ⟨hstep, by rw [hstep]; exact hsel, ?_⟩
  have hfm : (sortBy queueOrder (duePending qs "apex" now)).filterMap
      (joinPlayer players) = p :: ((sortBy queueOrder
        (duePending qs "apex" now)).filterMap (joinPlayer players)).tail := by
    simp only [get_next_from_queue] at hsel
    rcases hL : (sortBy queueOrder (duePending qs "apex" now)).filterMap
        (joinPlayer players) with _ | ⟨a, l'⟩
    · rw [hL] at hsel
      cases hsel
    · rw [hL] at hsel
      simp only [List.take_succ_cons, List.take_zero] at hsel
      obtain ⟨rfl, -⟩ := List.cons.inj hsel
      rfl
  obtain ⟨q, hqmem, hfq, hbest⟩ := filterMap_head_best queueOrder
    (joinPlayer players) (sortBy queueOrder (duePending qs "apex" now)) p _
    (pairwise_sortBy queueOrder queueOrder_total queueOrder_trans _) hfm
  have hqdue : q ∈ duePending qs "apex" now :=
    (mem_sortBy queueOrder q _).1 hqmem
  obtain ⟨hqs, hqt, hqnc, hqst⟩ := duePending_mem_spec qs "apex" now q hqdue
  refine ⟨q, hqs, hqt, hqst, hqnc, (joinPlayer_region players q p hfq).symm, hfq, ?_⟩
  intro q' hq' hne
  exact hbest q' ((mem_sortBy queueOrder q' _).2 hq') hne

theorem cross_region_queue_skip_witness :
    get_next_from_queue
        [⟨"euw1", "Faker", "T1", "apex", 5, 0, QStatus.pending, 0, none, none⟩]
        [⟨"euw1", "Faker", "T1", some "ap-1", none, some "CHALLENGER", 0⟩]
        "apex" 10 1
      = [⟨"euw1", "Faker", "T1", some "ap-1", none, some "CHALLENGER", 0⟩] ∧
    PlayerOps.PlayerRow.region
        ⟨"euw1", "Faker", "T1", some "ap-1", none, some "CHALLENGER", 0⟩ ≠ "na1" ∧
    (processRegionStep
        [⟨"euw1", "Faker", "T1", "apex", 5, 0, QStatus.pending, 0, none, none⟩]
        [⟨"euw1", "Faker", "T1", some "ap-1", none, some "CHALLENGER", 0⟩]
        "na1" 10
      = ([⟨"euw1", "Faker", "T1", "apex", 5, 0, QStatus.pending, 0, none, none⟩],
         none) ∧
     get_next_from_queue
        (processRegionStep
          [⟨"euw1", "Faker", "T1", "apex", 5, 0, QStatus.pending, 0, none, none⟩]
          [⟨"euw1", "Faker", "T1", some "ap-1", none, some "CHALLENGER", 0⟩]
          "na1" 10).1
        [⟨"euw1", "Faker", "T1", some "ap-1", none, some "CHALLENGER", 0⟩]
        "apex" 10 1
      = [⟨"euw1", "Faker", "T1", some "ap-1", none, some "CHALLENGER", 0⟩] ∧
     ∃ q, q ∈ [⟨"euw1", "Faker", "T1", "apex", 5, 0, QStatus.pending, 0, none,
            none⟩] ∧
       q.queue_type = "apex" ∧ q.status = QStatus.pending ∧ q.next_check ≤ 10 ∧
       q.region = PlayerOps.PlayerRow.region
         ⟨"euw1", "Faker", "T1", some "ap-1", none, some "CHALLENGER", 0⟩ ∧
       joinPlayer [⟨"euw1", "Faker", "T1", some "ap-1", none, some "CHALLENGER", 0⟩] q
         = some ⟨"euw1", "Faker", "T1", some "ap-1", none, some "CHALLENGER", 0⟩ ∧
       ∀ q' ∈ duePending
           [⟨"euw1", "Faker", "T1", "apex", 5, 0, QStatus.pending, 0, none, none⟩]
           "apex" 10,
         joinPlayer [⟨"euw1", "Faker", "T1", some "ap-1", none,
             some "CHALLENGER", 0⟩] q' ≠ none →
           q' = q ∨ queueOrder q q' = true) :=
  ⟨by decide, by decide,
   cross_region_queue_skip
     [⟨"euw1", "Faker", "T1", "apex", 5, 0, QStatus.pending, 0, none, none⟩]
     [⟨"euw1", "Faker", "T1", some "ap-1", none, some "CHALLENGER", 0⟩]
     "na1" 10
     ⟨"euw1", "Faker", "T1", some "ap-1", none, some "CHALLENGER", 0⟩ []
     (by decide) (by decide)⟩

end QueueOps
